import Mathlib

/-!
Shallow embedding of the dropheic backend: an Express service that accepts
HEIC/HEIF uploads, converts them to JPEG, and serves the results.

The embedding covers:
* multer filename sanitization and staging (`serverv2.js` lines 34-60);
* the conversion adapter `convertHeicToJpg` (`heicconvertV1.js`);
* the `POST /convert` handler loop (`serverv2.js` lines 88-173, identical in
  the unnamed production variant);
* the retention sweep `cleanupOldFiles` (unnamed variant lines 82-108).

JavaScript strings are modelled as `String`, `Date.now()` timestamps and byte
sizes as `Nat`, epoch-millisecond arithmetic in the sweep as `Int` (JS numbers
can go negative there).  Directories are modelled as lists of file names
(uploads) and name-size association lists (converted artifacts).
-/

namespace DropHeic

/-! ### Filename sanitization and staged names
multer `diskStorage.filename` (`serverv2.js` lines 38-43):
`file.originalname.replace(/[^a-zA-Z0-9.]/g, "-")` prefixed with
a millisecond timestamp. -/

/-- One character of the sanitizing replace: characters outside
`[a-zA-Z0-9.]` become a hyphen.  `Char.isAlphanum` is exactly ASCII
letters and digits, matching the regex character class. -/
def sanitizeChar (c : Char) : Char :=
  if c.isAlphanum || c == '.' then c else '-'

/-- `originalname.replace(/[^a-zA-Z0-9.]/g, "-")`: per-character replacement. -/
def sanitizedName (s : String) : String :=
  String.mk (s.data.map sanitizeChar)

/-- The staged name chosen by multer: `Date.now() + "-" + sanitizedName`. -/
def stagedFileName (now : Nat) (originalname : String) : String :=
  toString now ++ "-" ++ sanitizedName originalname

/-! ### Decimal digit strings
Facts about `Nat.repr` (the rendering of `Date.now()` used in staged names):
its characters are decimal digits and it is injective.  `natDigits` is a
fuel-free reference recursion equal to core's `Nat.toDigitsCore`. -/

/-- Fuel-free recursion computing the decimal digit characters of a `Nat`. -/
def natDigits (n : Nat) : List Char :=
  if n < 10 then [Nat.digitChar n]
  else natDigits (n / 10) ++ [Nat.digitChar (n % 10)]
termination_by n
decreasing_by omega

/-! ### Output file naming
`serverv2.js` lines 123-127: the converted name is
`path.basename(file.filename, path.extname(file.filename)) + ".jpg"`.
`extname` and `basenameExt` model the Node `path` functions for plain file
names (staged names never contain a directory separator: the separator is
sanitized to a hyphen and the timestamp is decimal digits). -/

/-- Node `path.extname` on a plain file name: the substring from the last
dot to the end, or empty when there is no dot or the only relevant dot is
the leading character. -/
def extname (p : String) : String :=
  if (p.data.reverse.takeWhile (fun c => c != '.')).length = p.data.reverse.length
  then ""
  else if (p.data.reverse.takeWhile (fun c => c != '.')).length + 1
      = p.data.reverse.length
  then ""
  else String.mk ('.' :: (p.data.reverse.takeWhile (fun c => c != '.')).reverse)

/-- Node `path.basename(p, suffix)` on a plain file name: strips `suffix`
when it is a proper suffix of `p`. -/
def basenameExt (p suffix : String) : String :=
  if suffix.data.isSuffixOf p.data && decide (suffix.length < p.length) then
    String.mk (p.data.take (p.data.length - suffix.data.length))
  else p

/-- The converted artifact name for a staged file name (handler lines 123-126). -/
def outputFilename (staged : String) : String :=
  basenameExt staged (extname staged) ++ ".jpg"

/-! ### Upload intake
multer configuration (`serverv2.js` lines 46-60): fileFilter accepts only
names matching `/\.(heic|heif)$/i`, a 10 MB per-file size limit, and
`.array("files", 10)`. -/

/-- The fileFilter extension test `/\.(heic|heif)$/i`: the name folded to
lower case must end in `.heic` or `.heif`. -/
def allowedFile (originalname : String) : Bool :=
  let l := originalname.data.map Char.toLower
  List.isSuffixOf ['.', 'h', 'e', 'i', 'c'] l
    || List.isSuffixOf ['.', 'h', 'e', 'i', 'f'] l

/-- Environment describing how the external codecs (heic-convert, sharp)
behave on one file's bytes: whether decode and encode succeed, the thrown
messages when they fail, and the byte size of the JPEG written on success. -/
structure ConvEnv where
  decodeOk : Bool
  decodeErr : String
  encodeOk : Bool
  encodeErr : String
  jpegSize : Nat
deriving DecidableEq

/-- The on-disk state the service manipulates: the staging directory as a
list of file names and the converted directory as a name-to-size listing. -/
structure FsState where
  uploads : List String
  converted : List (String × Nat)
deriving DecidableEq

/-- `fs.stat` on the converted directory: the size when present, else the
call throws (modelled as `none`). -/
def lookupSize (dir : List (String × Nat)) (name : String) : Option Nat :=
  (dir.find? (fun e => e.1 == name)).map (fun e => e.2)

/-- Writing (or overwriting) an artifact, as `sharp(...).toFile` does. -/
def writeFile (dir : List (String × Nat)) (name : String) (size : Nat) :
    List (String × Nat) :=
  (name, size) :: dir.filter (fun e => e.1 != name)

/-- The resolved value of `convertHeicToJpg`:
`{success:true, outputPath}` or `{success:false, error}`. -/
inductive ConvResult where
  | ok (outputPath : String)
  | err (error : String)
deriving DecidableEq

/-- `heicconvertV1.js` lines 7-32: read the staged bytes, decode HEIC,
re-encode as JPEG at the output path.  The whole body is wrapped in
try/catch, so every failure (missing input, decode, encode) resolves to
the `err` shape instead of rejecting; on failure nothing is written. -/
def convertHeicToJpg (env : ConvEnv) (st : FsState) (inputPath outputPath : String) :
    FsState × ConvResult :=
  if inputPath ∈ st.uploads then
    if env.decodeOk then
      if env.encodeOk then
        ({ st with converted := writeFile st.converted outputPath env.jpegSize },
          ConvResult.ok outputPath)
      else (st, ConvResult.err env.encodeErr)
    else (st, ConvResult.err env.decodeErr)
  else (st, ConvResult.err ("ENOENT: no such file or directory, open " ++ inputPath))

/-- One accepted file as the handler sees it: the client name, the staged
name multer assigned, and the codec behavior of its bytes. -/
structure UpFile where
  originalname : String
  filename : String
  conv : ConvEnv
deriving DecidableEq

/-- `fs.unlink` on the staging directory: removes the entry when present,
throws (`false`) when absent. -/
def unlinkUpload (st : FsState) (p : String) : FsState × Bool :=
  if p ∈ st.uploads then ({ st with uploads := st.uploads.erase p }, true)
  else (st, false)

/-- One element of the response `files` array (handler lines 131-136). -/
structure SuccessEntry where
  originalName : String
  convertedName : String
  downloadUrl : String
  size : Nat
deriving DecidableEq

/-- One element of the response `errors` array (handler lines 143-146). -/
structure ErrEntry where
  file : String
  error : String
deriving DecidableEq

/-- Observable filesystem calls made by the handler loop, for stating
attempted-conversion and deletion-count properties. -/
inductive FsEvent where
  | convertCalled (inputPath : String)
  | unlinkCalled (path : String) (ok : Bool)
deriving DecidableEq

def statErrMsg (outputPath : String) : String :=
  "ENOENT: no such file or directory, stat " ++ outputPath

def unlinkErrMsg (path : String) : String :=
  "ENOENT: no such file or directory, unlink " ++ path

/-- One iteration of the handler loop (`serverv2.js` lines 119-155):
compute the output name, call `convertHeicToJpg` (its resolved value is
ignored), `fs.stat` the output path for the size of the success entry,
push the entry and unlink the staged file; any throw (only `stat` or
`unlink` can throw) lands in the catch, which pushes an error entry and
attempts a best-effort unlink. -/
def processFile (st : FsState) (f : UpFile) :
    FsState × List SuccessEntry × List ErrEntry × List FsEvent :=
  let outName := outputFilename f.filename
  let res := convertHeicToJpg f.conv st f.filename outName
  match lookupSize res.1.converted outName with
  | some size =>
      let entry : SuccessEntry :=
        { originalName := f.originalname, convertedName := outName,
          downloadUrl := "/converted/" ++ outName, size := size }
      let u1 := unlinkUpload res.1 f.filename
      if u1.2 then
        (u1.1, [entry], [],
          [FsEvent.convertCalled f.filename, FsEvent.unlinkCalled f.filename true])
      else
        -- the unlink after the push threw: the catch records an error for the
        -- same file and retries the unlink (which fails again, swallowed)
        let u2 := unlinkUpload u1.1 f.filename
        (u2.1, [entry], [{ file := f.originalname, error := unlinkErrMsg f.filename }],
          [FsEvent.convertCalled f.filename, FsEvent.unlinkCalled f.filename false,
            FsEvent.unlinkCalled f.filename u2.2])
  | none =>
      let u1 := unlinkUpload res.1 f.filename
      (u1.1, [], [{ file := f.originalname, error := statErrMsg outName }],
        [FsEvent.convertCalled f.filename, FsEvent.unlinkCalled f.filename u1.2])

/-- The sequential `for (const file of req.files)` loop. -/
def processBatch :
    FsState → List UpFile → FsState × List SuccessEntry × List ErrEntry × List FsEvent
  | st, [] => (st, [], [], [])
  | st, f :: fs =>
      let r1 := processFile st f
      let r2 := processBatch r1.1 fs
      (r2.1, r1.2.1 ++ r2.2.1, r1.2.2.1 ++ r2.2.2.1, r1.2.2.2 ++ r2.2.2.2)

/-- The JSON body sent on the 200 path (handler lines 157-163).  `errors`
is `none` when the field is omitted (`undefined`). -/
structure ConvertResponse where
  success : Bool
  convertedCount : Nat
  totalFiles : Nat
  files : List SuccessEntry
  errors : Option (List ErrEntry)
deriving DecidableEq

/-- The handler's possible replies: a 400 JSON error or the 200 JSON body. -/
inductive HttpResponse where
  | badRequest (error : String)
  | ok (body : ConvertResponse)
deriving DecidableEq

/-- HTTP status code of a reply. -/
def statusOf : HttpResponse → Nat
  | HttpResponse.badRequest _ => 400
  | HttpResponse.ok _ => 200

/-- One file of the incoming multipart request, before intake: client
name, byte size, the `Date.now()` value at which multer stages it, and
the codec behavior of its bytes. -/
structure RawUpload where
  originalname : String
  size : Nat
  timestamp : Nat
  conv : ConvEnv
deriving DecidableEq

/-- The staged file multer produces for an accepted upload. -/
def stagedOf (u : RawUpload) : UpFile :=
  { originalname := u.originalname,
    filename := stagedFileName u.timestamp u.originalname,
    conv := u.conv }

/-- Modelled from the spec: multer's whole-request aggregation of the
upload middleware is not part of this repository (only its configuration
is, `serverv2.js` lines 34-60).  The spec: "Rejects the entire request
with IntakeError::ValidationFailed if any file fails the extension check
(fail-fast, no partial acceptance at this stage)"; limits of 10 MB per
file and 10 files per request reject with a MulterError.  The per-file
extension test (`allowedFile`) and staged naming (`stagedFileName`) are
taken from the source. -/
def acceptMultipart (uploads : List RawUpload) : Except String (List UpFile) :=
  if uploads.any (fun u => !allowedFile u.originalname) then
    Except.error "Only HEIC/HEIF files are allowed"
  else if uploads.any (fun u => u.size > 10 * 1024 * 1024) then
    Except.error "File upload error"
  else if uploads.length > 10 then
    Except.error "File upload error"
  else Except.ok (uploads.map stagedOf)

/-- multer diskStorage writing the accepted files into the staging
directory (an existing name is overwritten, not duplicated). -/
def stageFiles (uploads : List String) (names : List String) : List String :=
  names.foldl (fun u n => if n ∈ u then u else u ++ [n]) uploads

/-- The whole `POST /convert` endpoint (`serverv2.js` lines 88-173):
upload errors and the empty-batch case reply 400; otherwise the staged
files are processed sequentially and the 200 JSON summary is sent. -/
def postConvert (st : FsState) (uploads : List RawUpload) :
    FsState × HttpResponse × List FsEvent :=
  match acceptMultipart uploads with
  | Except.error msg => (st, HttpResponse.badRequest msg, [])
  | Except.ok files =>
      if files.isEmpty then (st, HttpResponse.badRequest "No files uploaded", [])
      else
        let st0 : FsState :=
          { st with uploads := stageFiles st.uploads (files.map (fun f => f.filename)) }
        let r := processBatch st0 files
        (r.1,
          HttpResponse.ok
            { success := r.2.1.length != 0,
              convertedCount := r.2.1.length,
              totalFiles := files.length,
              files := r.2.1,
              errors := if r.2.2.1.length != 0 then some r.2.2.1 else none },
          r.2.2.2)

/-! ### Retention sweep
`cleanupOldFiles` in the unnamed production variant (lines 82-108): both
directory loops run inside one try/catch; `fs.stat` and `fs.unlink` of an
entry can throw, which aborts the whole routine (the catch only logs). -/

/-- One directory entry as the sweep sees it: name, last-modified epoch
milliseconds, and whether `fs.stat` / `fs.unlink` succeed on it. -/
structure DirEntry where
  name : String
  mtime : Int
  statOk : Bool
  unlinkOk : Bool
deriving DecidableEq

def ONE_HOUR : Int := 60 * 60 * 1000

/-- The `for (const file of files)` deletion loop over one directory:
returns the remaining entries and whether an exception was thrown
(aborting the rest of the routine). -/
def sweepDir (now : Int) : List DirEntry → List DirEntry × Bool
  | [] => ([], false)
  | e :: rest =>
    if !e.statOk then (e :: rest, true)
    else if now - e.mtime > ONE_HOUR then
      if !e.unlinkOk then (e :: rest, true)
      else sweepDir now rest
    else
      let r := sweepDir now rest
      (e :: r.1, r.2)

/-- `cleanupOldFiles(now)`: sweep uploads, then converted; a throw in the
uploads loop propagates to the catch and skips the converted loop
entirely; a throw in the converted loop leaves its remaining entries. -/
def cleanupOldFiles (now : Int) (uploadsDir convertedDir : List DirEntry) :
    List DirEntry × List DirEntry :=
  let ru := sweepDir now uploadsDir
  if ru.2 then (ru.1, convertedDir)
  else (ru.1, (sweepDir now convertedDir).1)

/-! ### Describers for the handler loop
Spec-side characterizations of what one clean pass of the loop produces
(all filesystem operations on freshly staged, non-colliding files succeed). -/

/-- Whether the codecs succeed on this file's bytes (the input is present). -/
def fileOk (f : UpFile) : Bool := f.conv.decodeOk && f.conv.encodeOk

/-- The converted artifact name of a staged file. -/
def outName (f : UpFile) : String := outputFilename f.filename

/-- The response entry of a file whose conversion succeeded cleanly. -/
def mkSuccess (f : UpFile) : SuccessEntry :=
  { originalName := f.originalname, convertedName := outName f,
    downloadUrl := "/converted/" ++ outName f, size := f.conv.jpegSize }

/-- The response entry of a file whose conversion failed cleanly: the
recorded message is the one thrown by `fs.stat` on the missing output. -/
def mkError (f : UpFile) : ErrEntry :=
  { file := f.originalname, error := statErrMsg (outName f) }

def succList (fs : List UpFile) : List SuccessEntry :=
  (fs.filter fileOk).map mkSuccess

def errList (fs : List UpFile) : List ErrEntry :=
  (fs.filter (fun f => !fileOk f)).map mkError

def evList (fs : List UpFile) : List FsEvent :=
  (fs.map (fun f =>
    [FsEvent.convertCalled f.filename, FsEvent.unlinkCalled f.filename true])).flatten

/-- The filesystem state after one clean loop iteration: the staged file
is gone and, on success, its artifact was written. -/
def nextState (st : FsState) (f : UpFile) : FsState :=
  { uploads := st.uploads.erase f.filename,
    converted :=
      if fileOk f then writeFile st.converted (outName f) f.conv.jpegSize
      else st.converted }

/-- The filesystem state after multer stages the accepted files. -/
def stagedState (st : FsState) (uploads : List RawUpload) : FsState :=
  { st with uploads :=
      stageFiles st.uploads ((uploads.map stagedOf).map (fun f => f.filename)) }

/-- One staging event: multer choosing a staged name for one incoming file
(`idx` distinguishes distinct events in the multipart stream; the chosen
name depends only on the `Date.now()` value and the client name). -/
structure StagingEvent where
  idx : Nat
  timestamp : Nat
  originalname : String
deriving DecidableEq

def stagedNameOfEvent (e : StagingEvent) : String :=
  stagedFileName e.timestamp e.originalname

/-- Concrete inputs used by witnesses: an empty filesystem, one upload the
codecs convert (111-byte JPEG) and one whose decode fails. -/
def wSt : FsState := { uploads := [], converted := [] }

def wGood : RawUpload :=
  { originalname := "a.heic", size := 5, timestamp := 1000,
    conv := { decodeOk := true, decodeErr := "", encodeOk := true,
              encodeErr := "", jpegSize := 111 } }

def wBad : RawUpload :=
  { originalname := "b.heic", size := 5, timestamp := 1001,
    conv := { decodeOk := false, decodeErr := "decode failed", encodeOk := true,
              encodeErr := "", jpegSize := 0 } }

def wBatch : List RawUpload := [wGood, wBad]

theorem natDigits_lt (n : Nat) (h : n < 10) : natDigits n = [Nat.digitChar n] := by
  rw [natDigits]; simp [h]

theorem natDigits_ge (n : Nat) (h : ¬ n < 10) :
    natDigits n = natDigits (n / 10) ++ [Nat.digitChar (n % 10)] := by
  rw [natDigits]; simp [h]

theorem natDigits_ne_nil (n : Nat) : natDigits n ≠ [] := by
  by_cases h : n < 10
  · rw [natDigits_lt n h]; simp
  · rw [natDigits_ge n h]; simp

theorem digitChar_isDigit : ∀ m, m < 10 → (Nat.digitChar m).isDigit = true := by decide

theorem digitChar_inj : ∀ a, a < 10 → ∀ b, b < 10 →
    Nat.digitChar a = Nat.digitChar b → a = b := by decide

theorem natDigits_all_digits :
    ∀ (n : Nat), ∀ c ∈ natDigits n, c.isDigit = true := by
  intro n
  induction n using Nat.strong_induction_on with
  | _ n ih =>
    by_cases h : n < 10
    · rw [natDigits_lt n h]
      intro c hc
      simp only [List.mem_singleton] at hc
      subst hc
      exact digitChar_isDigit n h
    · rw [natDigits_ge n h]
      intro c hc
      rcases List.mem_append.mp hc with h1 | h1
      · exact ih (n / 10) (by omega) c h1
      · simp only [List.mem_singleton] at h1
        subst h1
        exact digitChar_isDigit (n % 10) (by omega)

theorem natDigits_inj : ∀ m n : Nat, natDigits m = natDigits n → m = n := by
  intro m
  induction m using Nat.strong_induction_on with
  | _ m ih =>
    intro n h
    by_cases hm : m < 10 <;> by_cases hn : n < 10
    · rw [natDigits_lt m hm, natDigits_lt n hn] at h
      simp only [List.cons.injEq, and_true] at h
      exact digitChar_inj m hm n hn h
    · rw [natDigits_lt m hm, natDigits_ge n hn] at h
      have hl := congrArg List.length h
      simp only [List.length_singleton, List.length_append] at hl
      have := natDigits_ne_nil (n / 10)
      cases hd : natDigits (n / 10) with
      | nil => exact absurd hd this
      | cons a l => rw [hd] at hl; simp at hl
    · rw [natDigits_ge m hm, natDigits_lt n hn] at h
      have hl := congrArg List.length h
      simp only [List.length_singleton, List.length_append] at hl
      have := natDigits_ne_nil (m / 10)
      cases hd : natDigits (m / 10) with
      | nil => exact absurd hd this
      | cons a l => rw [hd] at hl; simp at hl
    · rw [natDigits_ge m hm, natDigits_ge n hn] at h
      have h2 := congrArg List.reverse h
      simp only [List.reverse_append, List.reverse_singleton, List.singleton_append,
        List.cons.injEq, List.reverse_inj] at h2
      obtain ⟨hdc, hrest⟩ := h2
      have hdiv : m / 10 = n / 10 := ih (m / 10) (by omega) (n / 10) hrest
      have hmod : m % 10 = n % 10 :=
        digitChar_inj (m % 10) (by omega) (n % 10) (by omega) hdc
      omega

theorem toDigitsCore_eq_natDigits :
    ∀ (fuel n : Nat) (ds : List Char), n < fuel →
      Nat.toDigitsCore 10 fuel n ds = natDigits n ++ ds := by
  intro fuel
  induction fuel with
  | zero => intro n ds h; omega
  | succ f ih =>
    intro n ds h
    simp only [Nat.toDigitsCore]
    by_cases hd : n / 10 = 0
    · have hn : n < 10 := by omega
      simp [hd, natDigits_lt n hn, Nat.mod_eq_of_lt hn]
    · have h1 : n / 10 < f := by omega
      rw [if_neg hd, ih _ _ h1, natDigits_ge n (by omega)]
      simp

theorem natRepr_eq (n : Nat) : Nat.repr n = String.mk (natDigits n) := by
  rw [Nat.repr, Nat.toDigits, toDigitsCore_eq_natDigits (n + 1) n [] (Nat.lt_succ_self n)]
  simp [List.asString]

theorem toString_nat_eq (n : Nat) : toString n = Nat.repr n := rfl

theorem repr_all_digits (t : Nat) : ∀ c ∈ (Nat.repr t).data, c.isDigit = true := by
  rw [natRepr_eq]
  exact natDigits_all_digits t

theorem takeWhile_append_stop (p : Char → Bool) :
    ∀ (a : List Char), (∀ x ∈ a, p x = true) → ∀ (c : Char), p c = false →
    ∀ (b : List Char), (a ++ c :: b).takeWhile p = a := by
  intro a
  induction a with
  | nil => intro _ c hc b; simp [List.takeWhile_cons, hc]
  | cons x xs ih =>
    intro ha c hc b
    have hx : p x = true := ha x (by simp)
    have hxs := ih (fun y hy => ha y (by simp [hy])) c hc b
    simp [List.cons_append, List.takeWhile_cons, hx, hxs]

theorem stagedFileName_data (t : Nat) (n : String) :
    (stagedFileName t n).data =
      (Nat.repr t).data ++ '-' :: (sanitizedName n).data := by
  simp [stagedFileName, toString_nat_eq, String.data_append]

/-- Distinct `Date.now()` values yield distinct staged names, whatever the
original names: the decimal timestamp is recoverable as the maximal digit
prefix of the staged name. -/
theorem stagedFileName_timestamp_inj (t1 t2 : Nat) (n1 n2 : String) (h : t1 ≠ t2) :
    stagedFileName t1 n1 ≠ stagedFileName t2 n2 := by
  intro he
  apply h
  have hd := congrArg String.data he
  rw [stagedFileName_data, stagedFileName_data] at hd
  have h1 := congrArg (List.takeWhile Char.isDigit) hd
  rw [takeWhile_append_stop _ _ (repr_all_digits t1) '-' (by decide) _,
      takeWhile_append_stop _ _ (repr_all_digits t2) '-' (by decide) _] at h1
  rw [natRepr_eq, natRepr_eq] at h1
  exact natDigits_inj t1 t2 h1

theorem append_eq_mk (a b : String) :
    a ++ b = String.mk (a.data ++ b.data) := by
  cases a; cases b; rfl

theorem extname_append_HEIC (p : String) (hp : p.data ≠ []) :
    extname (p ++ ".HEIC") = ".HEIC" := by
  have hdata : (p ++ ".HEIC").data = p.data ++ ['.', 'H', 'E', 'I', 'C'] := by
    simp [String.data_append]
  have hne : p.data.length ≠ 0 := fun h => hp (List.eq_nil_of_length_eq_zero h)
  have hrev : (p ++ ".HEIC").data.reverse
      = ['C', 'I', 'E', 'H', '.'] ++ p.data.reverse := by
    rw [hdata, List.reverse_append]
    rfl
  have htake : (p ++ ".HEIC").data.reverse.takeWhile (fun c => c != '.')
      = ['C', 'I', 'E', 'H'] := by
    rw [hrev]
    exact takeWhile_append_stop _ ['C', 'I', 'E', 'H'] (by decide) '.'
      (by decide) p.data.reverse
  unfold extname
  rw [htake, hrev]
  have hc1 : ¬ ((['C', 'I', 'E', 'H'] : List Char).length
      = (['C', 'I', 'E', 'H', '.'] ++ p.data.reverse).length) := by
    simp only [List.length_append, List.length_reverse, List.length_cons,
      List.length_nil]
    omega
  have hc2 : ¬ ((['C', 'I', 'E', 'H'] : List Char).length + 1
      = (['C', 'I', 'E', 'H', '.'] ++ p.data.reverse).length) := by
    simp only [List.length_append, List.length_reverse, List.length_cons,
      List.length_nil]
    omega
  rw [if_neg hc1, if_neg hc2]
  decide

theorem basenameExt_strip (d e : List Char) (hd : d ≠ []) :
    basenameExt (String.mk (d ++ e)) (String.mk e) = String.mk d := by
  unfold basenameExt
  have hsuf : (String.mk e).data.isSuffixOf (String.mk (d ++ e)).data = true := by
    simp [List.isSuffixOf_iff_suffix]
  have hdlen : d.length ≠ 0 := fun h => hd (List.eq_nil_of_length_eq_zero h)
  have hlen : (String.mk e).length < (String.mk (d ++ e)).length := by
    simp only [String.length]
    show e.length < (d ++ e).length
    simp [List.length_append]
    omega
  rw [if_pos (by simp only [hsuf, Bool.true_and, decide_eq_true_eq]; exact hlen)]
  congr 1
  have h1 : (String.mk (d ++ e)).data.length - (String.mk e).data.length
      = d.length := by
    show (d ++ e).length - e.length = d.length
    simp [List.length_append]
  rw [h1]
  exact List.take_left d e

theorem mk_data (s : String) : String.mk s.data = s := by
  cases s
  rfl

theorem stagedFileName_photo (t : Nat) :
    stagedFileName t "photo 1.HEIC" = toString t ++ "-photo-1.HEIC" := by
  unfold stagedFileName
  rw [String.append_assoc]
  congr 1

theorem outputFilename_photo (t : Nat) :
    outputFilename (stagedFileName t "photo 1.HEIC") = toString t ++ "-photo-1.jpg" := by
  rw [stagedFileName_photo]
  have hq : ("-photo-1" : String) ++ ".HEIC" = "-photo-1.HEIC" := rfl
  have hsplit : toString t ++ "-photo-1.HEIC"
      = (toString t ++ "-photo-1") ++ ".HEIC" := by
    rw [String.append_assoc, hq]
  rw [hsplit]
  unfold outputFilename
  have hpne : (toString t ++ "-photo-1").data ≠ [] := by
    rw [String.data_append]
    intro h
    rcases List.append_eq_nil.mp h with ⟨h1, h2⟩
    exact absurd h2 (by decide)
  rw [extname_append_HEIC _ hpne]
  have hdot : (".HEIC" : String) = String.mk ['.', 'H', 'E', 'I', 'C'] := rfl
  have hb : basenameExt ((toString t ++ "-photo-1") ++ ".HEIC") ".HEIC"
      = toString t ++ "-photo-1" := by
    rw [append_eq_mk, hdot]
    rw [basenameExt_strip _ _ hpne, mk_data]
  rw [hb, String.append_assoc]
  congr 1

theorem succList_cons (f : UpFile) (fs : List UpFile) :
    succList (f :: fs) = (if fileOk f then [mkSuccess f] else []) ++ succList fs := by
  by_cases h : fileOk f <;> simp [succList, List.filter_cons, h]

theorem errList_cons (f : UpFile) (fs : List UpFile) :
    errList (f :: fs) = (if fileOk f then [] else [mkError f]) ++ errList fs := by
  by_cases h : fileOk f <;> simp [errList, List.filter_cons, h]

theorem evList_cons (f : UpFile) (fs : List UpFile) :
    evList (f :: fs) =
      FsEvent.convertCalled f.filename ::
        FsEvent.unlinkCalled f.filename true :: evList fs := by
  simp [evList]

theorem find_filter_ne (dir : List (String × Nat)) (n m : String) (h : m ≠ n) :
    (dir.filter (fun e => e.1 != n)).find? (fun e => e.1 == m)
      = dir.find? (fun e => e.1 == m) := by
  induction dir with
  | nil => rfl
  | cons e rest ih =>
    by_cases he : e.1 = m
    · have hn : (e.1 != n) = true := by simp [he, h]
      rw [List.filter_cons, if_pos hn]
      rw [List.find?_cons_of_pos _ (by simp [he]), List.find?_cons_of_pos _ (by simp [he])]
    · by_cases hn : e.1 = n
      · rw [List.filter_cons, if_neg (by simp [hn]),
          List.find?_cons_of_neg _ (by simp [he]), ih]
      · rw [List.filter_cons, if_pos (by simp [hn]),
          List.find?_cons_of_neg _ (by simp [he]),
          List.find?_cons_of_neg _ (by simp [he]), ih]

theorem lookupSize_writeFile (dir : List (String × Nat)) (n m : String) (s : Nat) :
    lookupSize (writeFile dir n s) m
      = if m = n then some s else lookupSize dir m := by
  by_cases h : m = n
  · subst h
    rw [if_pos rfl]
    simp [lookupSize, writeFile, List.find?_cons_of_pos]
  · rw [if_neg h]
    unfold lookupSize writeFile
    rw [List.find?_cons_of_neg _ (by simp; exact Ne.symm h), find_filter_ne _ _ _ h]

/-- One clean loop iteration: the staged file is present and no artifact
pre-exists at its output name.  Conversion success is then equivalent to
the codecs succeeding; either way exactly one response entry is recorded
and the staged file is unlinked once, successfully. -/
theorem processFile_clean (st : FsState) (f : UpFile)
    (hmem : f.filename ∈ st.uploads)
    (hclean : lookupSize st.converted (outName f) = none) :
    processFile st f =
      (nextState st f,
       (if fileOk f then [mkSuccess f] else []),
       (if fileOk f then [] else [mkError f]),
       [FsEvent.convertCalled f.filename, FsEvent.unlinkCalled f.filename true]) := by
  simp only [outName] at hclean
  unfold processFile convertHeicToJpg nextState
  by_cases hd : f.conv.decodeOk <;> by_cases he : f.conv.encodeOk <;>
    simp [hmem, hd, he, fileOk, unlinkUpload, lookupSize_writeFile, hclean,
      mkSuccess, mkError, outName]

theorem processBatch_cons (st : FsState) (f : UpFile) (fs : List UpFile) :
    processBatch st (f :: fs) =
      ((processBatch (processFile st f).1 fs).1,
       (processFile st f).2.1 ++ (processBatch (processFile st f).1 fs).2.1,
       (processFile st f).2.2.1 ++ (processBatch (processFile st f).1 fs).2.2.1,
       (processFile st f).2.2.2 ++ (processBatch (processFile st f).1 fs).2.2.2) := rfl

/-- One clean pass of the whole loop: distinct staged names, distinct output
names, all staged files present, no pre-existing artifacts at the output
names.  The loop then records exactly the clean per-file entries, emits one
successful unlink per file, removes exactly the staged names from the
staging directory and keeps it duplicate-free. -/
theorem processBatch_clean :
    ∀ (fs : List UpFile) (st : FsState),
      st.uploads.Nodup →
      (∀ f ∈ fs, f.filename ∈ st.uploads) →
      (fs.map (fun f => f.filename)).Nodup →
      (fs.map outName).Nodup →
      (∀ f ∈ fs, lookupSize st.converted (outName f) = none) →
      (processBatch st fs).2.1 = succList fs
      ∧ (processBatch st fs).2.2.1 = errList fs
      ∧ (processBatch st fs).2.2.2 = evList fs
      ∧ (∀ f ∈ fs, f.filename ∉ (processBatch st fs).1.uploads)
      ∧ (processBatch st fs).1.uploads.Nodup
      ∧ (∀ n, n ∉ fs.map (fun f => f.filename) →
          ((n ∈ (processBatch st fs).1.uploads) ↔ n ∈ st.uploads)) := by
  intro fs
  induction fs with
  | nil =>
    intro st hu _ _ _ _
    exact ⟨rfl, rfl, rfl, by simp, hu, fun n _ => Iff.rfl⟩
  | cons f fs ih =>
    intro st hu hmem hnod hout hclean
    have hf := processFile_clean st f (hmem f (by simp)) (hclean f (by simp))
    rcases List.nodup_cons.mp hnod with ⟨hfn, hnodtail⟩
    rcases List.nodup_cons.mp hout with ⟨hon, houttail⟩
    have huploads1 : (nextState st f).uploads = st.uploads.erase f.filename := rfl
    have hu1 : (nextState st f).uploads.Nodup := by
      rw [huploads1]; exact List.Nodup.erase _ hu
    have hmem1 : ∀ g ∈ fs, g.filename ∈ (nextState st f).uploads := by
      intro g hg
      have hne : g.filename ≠ f.filename := by
        intro hh
        have hmm : g.filename ∈ List.map (fun x => x.filename) fs :=
          List.mem_map_of_mem _ hg
        rw [hh] at hmm
        exact hfn hmm
      rw [huploads1]
      exact (List.mem_erase_of_ne hne).mpr (hmem g (by simp [hg]))
    have hclean1 : ∀ g ∈ fs, lookupSize (nextState st f).converted (outName g) = none := by
      intro g hg
      by_cases hok : fileOk f
      · have hc : (nextState st f).converted
            = writeFile st.converted (outName f) f.conv.jpegSize := by
          simp [nextState, hok]
        rw [hc, lookupSize_writeFile, if_neg, hclean g (by simp [hg])]
        intro hh; exact hon (hh ▸ List.mem_map_of_mem _ hg)
      · have hc : (nextState st f).converted = st.converted := by
          simp [nextState, hok]
        rw [hc]; exact hclean g (by simp [hg])
    have IH := ih (nextState st f) hu1 hmem1 hnodtail houttail hclean1
    have key : processBatch st (f :: fs) =
        ((processBatch (nextState st f) fs).1,
         (if fileOk f then [mkSuccess f] else [])
           ++ (processBatch (nextState st f) fs).2.1,
         (if fileOk f then [] else [mkError f])
           ++ (processBatch (nextState st f) fs).2.2.1,
         [FsEvent.convertCalled f.filename, FsEvent.unlinkCalled f.filename true]
           ++ (processBatch (nextState st f) fs).2.2.2) := by
      rw [processBatch_cons, hf]
    refine ⟨?_, ?_, ?_, ?_, ?_, ?_⟩
    · rw [key, succList_cons, IH.1]
    · rw [key, errList_cons, IH.2.1]
    · rw [key, evList_cons, IH.2.2.1]
      rfl
    · intro g hg
      rw [key]
      rcases List.mem_cons.mp hg with hgf | hgtail
      · subst hgf
        intro habs
        have := (IH.2.2.2.2.2 g.filename hfn).mp habs
        rw [huploads1] at this
        exact List.Nodup.not_mem_erase hu this
      · exact IH.2.2.2.1 g hgtail
    · rw [key]
      exact IH.2.2.2.2.1
    · intro n hn
      rw [key]
      simp only [List.map_cons, List.mem_cons, not_or] at hn
      rw [IH.2.2.2.2.2 n hn.2, huploads1]
      exact List.mem_erase_of_ne hn.1

theorem stageFiles_fresh :
    ∀ (names ups : List String), names.Nodup → (∀ n ∈ names, n ∉ ups) →
      stageFiles ups names = ups ++ names := by
  intro names
  induction names with
  | nil => intro ups _ _; simp [stageFiles]
  | cons n rest ih =>
    intro ups hnd hf
    rcases List.nodup_cons.mp hnd with ⟨hn, hrest⟩
    have hnotin : n ∉ ups := hf n (by simp)
    have step : stageFiles ups (n :: rest) = stageFiles (ups ++ [n]) rest := by
      simp only [stageFiles, List.foldl_cons, if_neg hnotin]
    have hforall : ∀ m ∈ rest, m ∉ ups ++ [n] := by
      intro m hm habs
      rcases List.mem_append.mp habs with h1 | h1
      · exact hf m (by simp [hm]) h1
      · simp only [List.mem_singleton] at h1
        subst h1
        exact hn hm
    rw [step, ih (ups ++ [n]) hrest hforall]
    simp

theorem postConvert_accepted (st : FsState) (uploads : List RawUpload)
    (hacc : acceptMultipart uploads = Except.ok (uploads.map stagedOf))
    (hfe : (uploads.map stagedOf).isEmpty = false) :
    postConvert st uploads =
      ((processBatch (stagedState st uploads) (uploads.map stagedOf)).1,
       HttpResponse.ok
         { success :=
             (processBatch (stagedState st uploads) (uploads.map stagedOf)).2.1.length != 0,
           convertedCount :=
             (processBatch (stagedState st uploads) (uploads.map stagedOf)).2.1.length,
           totalFiles := (uploads.map stagedOf).length,
           files := (processBatch (stagedState st uploads) (uploads.map stagedOf)).2.1,
           errors :=
             if (processBatch (stagedState st uploads) (uploads.map stagedOf)).2.2.1.length != 0
             then some (processBatch (stagedState st uploads) (uploads.map stagedOf)).2.2.1
             else none },
       (processBatch (stagedState st uploads) (uploads.map stagedOf)).2.2.2) := by
  unfold postConvert stagedState
  rw [hacc]
  simp only [hfe, Bool.false_eq_true, if_false]

theorem succ_err_length (fs : List UpFile) :
    (succList fs).length + (errList fs).length = fs.length := by
  induction fs with
  | nil => rfl
  | cons f fs ih =>
    rw [succList_cons, errList_cons]
    by_cases h : fileOk f <;> simp [h, List.length_append] <;> omega

theorem succList_eq_nil_iff (fs : List UpFile) :
    succList fs = [] ↔ ∀ f ∈ fs, ¬ fileOk f = true := by
  simp [succList, List.filter_eq_nil_iff]

theorem errList_eq_nil_iff (fs : List UpFile) :
    errList fs = [] ↔ ∀ f ∈ fs, fileOk f = true := by
  simp [errList, List.filter_eq_nil_iff]

theorem evList_count_unlink (fs : List UpFile) (n : String) :
    (evList fs).count (FsEvent.unlinkCalled n true)
      = (fs.map (fun f => f.filename)).count n := by
  induction fs with
  | nil => rfl
  | cons f fs ih =>
    rw [evList_cons]
    by_cases h : f.filename = n
    · subst h
      simp [List.count_cons, ih]
    · simp [List.count_cons, ih, h]

theorem evList_no_failed_unlink (fs : List UpFile) (n : String) :
    FsEvent.unlinkCalled n false ∉ evList fs := by
  induction fs with
  | nil => simp [evList]
  | cons f fs ih =>
    rw [evList_cons]
    simp [ih]

theorem evList_mem_convert (fs : List UpFile) (f : UpFile) (hf : f ∈ fs) :
    FsEvent.convertCalled f.filename ∈ evList fs := by
  induction fs with
  | nil => cases hf
  | cons g fs ih =>
    rw [evList_cons]
    rcases List.mem_cons.mp hf with h | h
    · subst h; simp
    · simp [ih h]

theorem errList_mem (fs : List UpFile) (f : UpFile) (hf : f ∈ fs)
    (hfail : fileOk f = false) : mkError f ∈ errList fs := by
  unfold errList
  exact List.mem_map_of_mem _ (List.mem_filter.mpr ⟨hf, by simp [hfail]⟩)

theorem succList_mem (fs : List UpFile) (f : UpFile) (hf : f ∈ fs)
    (hok : fileOk f = true) : mkSuccess f ∈ succList fs := by
  unfold succList
  exact List.mem_map_of_mem _ (List.mem_filter.mpr ⟨hf, by simp [hok]⟩)

/-- A clean accepted request: non-empty, all extensions allowed, inside the
size and count limits, staged names fresh and duplicate-free, output names
duplicate-free and not pre-existing in the converted directory.  The
endpoint then returns the 200 summary built from the clean per-file
outcomes, the event trace of the loop, and a staging directory free of the
batch's staged names. -/
theorem postConvert_clean (st : FsState) (uploads : List RawUpload)
    (hne : uploads ≠ [])
    (hext : ∀ u ∈ uploads, allowedFile u.originalname = true)
    (hsize : ∀ u ∈ uploads, u.size ≤ 10 * 1024 * 1024)
    (hcount : uploads.length ≤ 10)
    (hu : st.uploads.Nodup)
    (hfresh : ∀ f ∈ uploads.map stagedOf, f.filename ∉ st.uploads)
    (hnod : ((uploads.map stagedOf).map (fun f => f.filename)).Nodup)
    (hout : ((uploads.map stagedOf).map outName).Nodup)
    (hclean : ∀ f ∈ uploads.map stagedOf, lookupSize st.converted (outName f) = none) :
    (postConvert st uploads).2.1 = HttpResponse.ok
        { success := (succList (uploads.map stagedOf)).length != 0,
          convertedCount := (succList (uploads.map stagedOf)).length,
          totalFiles := uploads.length,
          files := succList (uploads.map stagedOf),
          errors :=
            if (errList (uploads.map stagedOf)).length != 0
            then some (errList (uploads.map stagedOf)) else none }
      ∧ (postConvert st uploads).2.2 = evList (uploads.map stagedOf)
      ∧ (∀ f ∈ uploads.map stagedOf, f.filename ∉ (postConvert st uploads).1.uploads) := by
  have h1 : uploads.any (fun u => !allowedFile u.originalname) = false := by
    rw [List.any_eq_false]
    intro u hu2
    simp [hext u hu2]
  have h2 : uploads.any (fun u => u.size > 10 * 1024 * 1024) = false := by
    rw [List.any_eq_false]
    intro u hu2
    have := hsize u hu2
    simp
    omega
  have h3 : ¬ (uploads.length > 10) := by omega
  have hacc : acceptMultipart uploads = Except.ok (uploads.map stagedOf) := by
    unfold acceptMultipart
    simp [h1, h2, h3]
  have hfe : (uploads.map stagedOf).isEmpty = false := by
    cases uploads with
    | nil => exact absurd rfl hne
    | cons a l => rfl
  have hstage : stageFiles st.uploads ((uploads.map stagedOf).map (fun f => f.filename))
      = st.uploads ++ (uploads.map stagedOf).map (fun f => f.filename) := by
    apply stageFiles_fresh _ _ hnod
    intro n hn
    rcases List.mem_map.mp hn with ⟨f, hf2, rfl⟩
    exact hfresh f hf2
  have hsu : (stagedState st uploads).uploads
      = st.uploads ++ (uploads.map stagedOf).map (fun f => f.filename) := by
    unfold stagedState
    exact hstage
  have hdisj : st.uploads.Disjoint ((uploads.map stagedOf).map (fun f => f.filename)) := by
    intro a ha hb
    rcases List.mem_map.mp hb with ⟨f, hf2, rfl⟩
    exact hfresh f hf2 ha
  have HB := processBatch_clean (uploads.map stagedOf) (stagedState st uploads)
    (by rw [hsu]; exact List.Nodup.append hu hnod hdisj)
    (by
      intro f hf2
      rw [hsu]
      exact List.mem_append_right _ (List.mem_map_of_mem _ hf2))
    hnod hout
    (by
      intro f hf2
      exact hclean f hf2)
  rw [postConvert_accepted st uploads hacc hfe]
  refine ⟨?_, ?_, ?_⟩
  · rw [HB.1, HB.2.1]
    simp [List.length_map]
  · exact HB.2.2.1
  · intro f hf2
    exact HB.2.2.2.1 f hf2

/-- C10: `convertHeicToJpg` never rejects: for every environment, state and
pair of paths it resolves to `{success:true, outputPath}` — having written
the artifact, which requires the input present and both codec steps to
succeed — or to `{success:false, error}` with the state unchanged; every
exception of the read, decode, or encode steps is caught internally. -/
theorem convertHeicToJpg_never_rejects (env : ConvEnv) (st : FsState)
    (inputPath outputPath : String) :
    ((convertHeicToJpg env st inputPath outputPath).2 = ConvResult.ok outputPath
      ∧ (convertHeicToJpg env st inputPath outputPath).1.converted
          = writeFile st.converted outputPath env.jpegSize
      ∧ inputPath ∈ st.uploads ∧ env.decodeOk = true ∧ env.encodeOk = true)
    ∨ (∃ m, (convertHeicToJpg env st inputPath outputPath).2 = ConvResult.err m
      ∧ (convertHeicToJpg env st inputPath outputPath).1 = st) := by
  unfold convertHeicToJpg
  by_cases h1 : inputPath ∈ st.uploads
  · by_cases h2 : env.decodeOk
    · by_cases h3 : env.encodeOk
      · exact Or.inl (by simp [h1, h2, h3])
      · exact Or.inr ⟨env.encodeErr, by simp [h1, h2, h3]⟩
    · exact Or.inr ⟨env.decodeErr, by simp [h1, h2]⟩
  · exact Or.inr ⟨"ENOENT: no such file or directory, open " ++ inputPath, by simp [h1]⟩

/-- C9: per-file success is decided by `fs.stat` on the output path, not by
the adapter's returned flag (which the handler ignores): when a file whose
conversion fails is processed while an artifact already exists at its
output path, the handler still records a success entry whose size is the
pre-existing artifact's size, and no error entry. -/
theorem stat_decides_success (orig n : String) (conv : ConvEnv) (s : Nat)
    (hfail : conv.decodeOk = false ∨ conv.encodeOk = false) :
    processBatch { uploads := [n], converted := [(outputFilename n, s)] }
        [{ originalname := orig, filename := n, conv := conv }]
      = ({ uploads := [], converted := [(outputFilename n, s)] },
         [{ originalName := orig, convertedName := outputFilename n,
            downloadUrl := "/converted/" ++ outputFilename n, size := s }],
         [], [FsEvent.convertCalled n, FsEvent.unlinkCalled n true]) := by
  rcases hfail with h | h
  · simp [processBatch, processFile, convertHeicToJpg, h, lookupSize, unlinkUpload]
  · by_cases hd : conv.decodeOk <;>
      simp [processBatch, processFile, convertHeicToJpg, h, hd, lookupSize, unlinkUpload]

/-- Witness for C9: a decode failure on `1000-bad.heic` with a stale
`1000-bad.jpg` of 777 bytes already on disk is reported as a 777-byte
success. -/
theorem stat_decides_success_witness :
    ((⟨false, "decode failed", true, "", 0⟩ : ConvEnv).decodeOk = false
      ∨ (⟨false, "decode failed", true, "", 0⟩ : ConvEnv).encodeOk = false)
    ∧ processBatch
        { uploads := ["1000-bad.heic"],
          converted := [(outputFilename "1000-bad.heic", 777)] }
        [{ originalname := "bad.heic", filename := "1000-bad.heic",
           conv := ⟨false, "decode failed", true, "", 0⟩ }]
      = ({ uploads := [], converted := [(outputFilename "1000-bad.heic", 777)] },
         [{ originalName := "bad.heic", convertedName := outputFilename "1000-bad.heic",
            downloadUrl := "/converted/" ++ outputFilename "1000-bad.heic", size := 777 }],
         [], [FsEvent.convertCalled "1000-bad.heic",
              FsEvent.unlinkCalled "1000-bad.heic" true]) :=
  ⟨Or.inl rfl,
    stat_decides_success "bad.heic" "1000-bad.heic" ⟨false, "decode failed", true, "", 0⟩ 777
      (Or.inl rfl)⟩

/-- C4: a request containing any file whose name fails the extension check
is rejected as a whole with HTTP 400: the filesystem state is untouched (no
staging side effects) and no conversion is attempted. -/
theorem bad_extension_rejected (st : FsState) (uploads : List RawUpload)
    (hbad : ∃ u ∈ uploads, allowedFile u.originalname = false) :
    statusOf (postConvert st uploads).2.1 = 400
    ∧ (postConvert st uploads).1 = st
    ∧ (postConvert st uploads).2.2 = [] := by
  have h1 : uploads.any (fun u => !allowedFile u.originalname) = true := by
    rw [List.any_eq_true]
    rcases hbad with ⟨u, hu2, hf⟩
    exact ⟨u, hu2, by simp [hf]⟩
  simp [postConvert, acceptMultipart, h1, statusOf]

/-- Witness for C4: a `.png` in the batch is rejected with 400 and no side
effects, even alongside a valid `.heic`. -/
theorem bad_extension_rejected_witness :
    (∃ u ∈ [({ originalname := "a.heic", size := 5, timestamp := 1,
               conv := ⟨true, "", true, "", 9⟩ } : RawUpload),
            { originalname := "x.png", size := 5, timestamp := 2,
              conv := ⟨true, "", true, "", 9⟩ }],
        allowedFile u.originalname = false)
    ∧ (statusOf (postConvert { uploads := [], converted := [] }
          [{ originalname := "a.heic", size := 5, timestamp := 1,
             conv := ⟨true, "", true, "", 9⟩ },
           { originalname := "x.png", size := 5, timestamp := 2,
             conv := ⟨true, "", true, "", 9⟩ }]).2.1 = 400
      ∧ (postConvert { uploads := [], converted := [] }
          [{ originalname := "a.heic", size := 5, timestamp := 1,
             conv := ⟨true, "", true, "", 9⟩ },
           { originalname := "x.png", size := 5, timestamp := 2,
             conv := ⟨true, "", true, "", 9⟩ }]).1 = { uploads := [], converted := [] }
      ∧ (postConvert { uploads := [], converted := [] }
          [{ originalname := "a.heic", size := 5, timestamp := 1,
             conv := ⟨true, "", true, "", 9⟩ },
           { originalname := "x.png", size := 5, timestamp := 2,
             conv := ⟨true, "", true, "", 9⟩ }]).2.2 = []) :=
  ⟨by decide,
    bad_extension_rejected { uploads := [], converted := [] } _ (by decide)⟩

/-- Counterexample for C6: two distinct staging events in the same
millisecond, for identically-named files, receive the same staged name —
the timestamp prefix does not guarantee collision freedom. -/
theorem same_millisecond_collision :
    (⟨0, 1700000000000, "photo 1.HEIC"⟩ : StagingEvent)
        ≠ ⟨1, 1700000000000, "photo 1.HEIC"⟩
    ∧ stagedNameOfEvent ⟨0, 1700000000000, "photo 1.HEIC"⟩
        = stagedNameOfEvent ⟨1, 1700000000000, "photo 1.HEIC"⟩ := by
  constructor
  · decide
  · rfl

/-- C6 (amended): staged names replace every character outside
`[A-Za-z0-9.]` with a hyphen and prefix the creation timestamp; this
guarantees distinct staged names whenever the timestamps differ (but not
within one millisecond), and `photo 1.HEIC` stages as
`<timestamp>-photo-1.HEIC` and converts to `<timestamp>-photo-1.jpg`. -/
theorem staged_names_time_keyed :
    (∀ (t1 : Nat) (n1 : String) (t2 : Nat) (n2 : String), t1 ≠ t2 →
        stagedFileName t1 n1 ≠ stagedFileName t2 n2)
    ∧ (∀ t : Nat, stagedFileName t "photo 1.HEIC" = toString t ++ "-photo-1.HEIC"
        ∧ outputFilename (stagedFileName t "photo 1.HEIC")
            = toString t ++ "-photo-1.jpg") :=
  ⟨fun t1 n1 t2 n2 h => stagedFileName_timestamp_inj t1 t2 n1 n2 h,
   fun t => ⟨stagedFileName_photo t, outputFilename_photo t⟩⟩

/-- Witness for C6 (amended) at concrete inputs. -/
theorem staged_names_time_keyed_witness :
    ((1 : Nat) ≠ 2
      ∧ stagedFileName 1 "photo 1.HEIC" ≠ stagedFileName 2 "photo 1.HEIC")
    ∧ (stagedFileName 7 "photo 1.HEIC" = "7-photo-1.HEIC"
      ∧ outputFilename (stagedFileName 7 "photo 1.HEIC") = "7-photo-1.jpg") :=
  ⟨⟨by decide,
    staged_names_time_keyed.1 1 "photo 1.HEIC" 2 "photo 1.HEIC" (by decide)⟩,
   ⟨by rw [(staged_names_time_keyed.2 7).1]; decide,
    by rw [(staged_names_time_keyed.2 7).2]; decide⟩⟩

theorem sweepDir_ok (now : Int) :
    ∀ (l : List DirEntry), (∀ e ∈ l, e.statOk = true ∧ e.unlinkOk = true) →
      sweepDir now l = (l.filter (fun e => decide (now - e.mtime ≤ ONE_HOUR)), false) := by
  intro l
  induction l with
  | nil => intro _; rfl
  | cons e rest ih =>
    intro h
    have he := h e (by simp)
    have htail := ih (fun g hg => h g (by simp [hg]))
    by_cases hage : now - e.mtime > ONE_HOUR
    · have hd : decide (now - e.mtime ≤ ONE_HOUR) = false := by simp; omega
      simp [sweepDir, he.1, he.2, hage, List.filter_cons, hd, htail]
      rw [if_neg (by omega)]
    · have hd : decide (now - e.mtime ≤ ONE_HOUR) = true := by simp; omega
      simp [sweepDir, he.1, hage, List.filter_cons, hd, htail]
      rw [if_pos (by omega)]

theorem sweepDir_abort (now : Int) :
    ∀ (good : List DirEntry) (bad : DirEntry) (rest : List DirEntry),
      (∀ e ∈ good, e.statOk = true ∧ e.unlinkOk = true) →
      (bad.statOk = false ∨ (now - bad.mtime > ONE_HOUR ∧ bad.unlinkOk = false)) →
      sweepDir now (good ++ bad :: rest)
        = (good.filter (fun e => decide (now - e.mtime ≤ ONE_HOUR)) ++ bad :: rest,
           true) := by
  intro good
  induction good with
  | nil =>
    intro bad rest _ hbad
    rcases hbad with hb | ⟨hold, hb⟩
    · simp [sweepDir, hb]
    · by_cases hstat : bad.statOk <;> simp [sweepDir, hstat, hold, hb]
  | cons e good ih =>
    intro bad rest hgood hbad
    have he := hgood e (by simp)
    have htail := ih bad rest (fun g hg => hgood g (by simp [hg])) hbad
    rw [List.cons_append]
    by_cases hage : now - e.mtime > ONE_HOUR
    · have hd : decide (now - e.mtime ≤ ONE_HOUR) = false := by simp; omega
      simp [sweepDir, he.1, he.2, hage, List.filter_cons, hd, htail]
      rw [if_neg (by omega)]
    · have hd : decide (now - e.mtime ≤ ONE_HOUR) = true := by simp; omega
      simp [sweepDir, he.1, hage, List.filter_cons, hd, htail]
      rw [if_pos (by omega), List.cons_append]

/-- Counterexample for C5: with two deletable entries older than the
threshold in the uploads directory, a deletion failure on the first aborts
the sweep: the second old entry is not deleted in that same cycle. -/
theorem sweep_abort_counterexample :
    (7200000 - (⟨"old-deletable", 0, true, true⟩ : DirEntry).mtime > ONE_HOUR)
    ∧ cleanupOldFiles 7200000
        [⟨"old-fails", 0, true, false⟩, ⟨"old-deletable", 0, true, true⟩] []
      = ([⟨"old-fails", 0, true, false⟩, ⟨"old-deletable", 0, true, true⟩], [])
    ∧ (⟨"old-deletable", 0, true, true⟩ : DirEntry)
        ∈ (cleanupOldFiles 7200000
            [⟨"old-fails", 0, true, false⟩, ⟨"old-deletable", 0, true, true⟩] []).1 := by
  refine ⟨by decide, ?_, ?_⟩ <;> decide

/-- C5 (amended): a failure to delete (or stat) one entry is caught by the
routine's catch (logged, the process and timer survive), but it aborts the
remainder of that sweep cycle: entries after the failing one keep their
pre-sweep state, and when the failure is in the uploads directory the
converted directory is not examined at all that cycle; entries before the
failing one were already swept normally. -/
theorem sweep_failure_aborts_rest (now : Int) (good : List DirEntry)
    (bad : DirEntry) (rest conv : List DirEntry)
    (hgood : ∀ e ∈ good, e.statOk = true ∧ e.unlinkOk = true)
    (hbad : bad.statOk = false ∨ (now - bad.mtime > ONE_HOUR ∧ bad.unlinkOk = false)) :
    cleanupOldFiles now (good ++ bad :: rest) conv
      = (good.filter (fun e => decide (now - e.mtime ≤ ONE_HOUR)) ++ bad :: rest,
         conv) := by
  unfold cleanupOldFiles
  rw [sweepDir_abort now good bad rest hgood hbad]
  simp

/-- Witness for C5 (amended): the failing entry aborts the cycle after the
younger first entry was examined and kept. -/
theorem sweep_failure_aborts_rest_witness :
    ((∀ e ∈ [(⟨"young", 7000000, true, true⟩ : DirEntry)],
        e.statOk = true ∧ e.unlinkOk = true)
      ∧ ((⟨"old-fails", 0, true, false⟩ : DirEntry).statOk = false
          ∨ (7200000 - (⟨"old-fails", 0, true, false⟩ : DirEntry).mtime > ONE_HOUR
            ∧ (⟨"old-fails", 0, true, false⟩ : DirEntry).unlinkOk = false)))
    ∧ cleanupOldFiles 7200000
        ([⟨"young", 7000000, true, true⟩] ++ ⟨"old-fails", 0, true, false⟩
          :: [⟨"old-deletable", 0, true, true⟩])
        [⟨"old-conv", 0, true, true⟩]
      = ([(⟨"young", 7000000, true, true⟩ : DirEntry)].filter
            (fun e => decide (7200000 - e.mtime ≤ ONE_HOUR))
          ++ ⟨"old-fails", 0, true, false⟩ :: [⟨"old-deletable", 0, true, true⟩],
         [⟨"old-conv", 0, true, true⟩]) :=
  ⟨⟨by decide, Or.inr (by decide)⟩,
    sweep_failure_aborts_rest 7200000 [⟨"young", 7000000, true, true⟩]
      ⟨"old-fails", 0, true, false⟩ [⟨"old-deletable", 0, true, true⟩]
      [⟨"old-conv", 0, true, true⟩] (by decide) (Or.inr (by decide))⟩

/-- C8: when every stat and unlink succeeds, one sweep deletes exactly the
entries strictly older than the one-hour threshold (measured as
`now - mtime > ONE_HOUR`) from both directories, keeps every younger
entry, and applies the same one-hour constant to both directories. -/
theorem retention_sweep_exact (now : Int) (up conv : List DirEntry)
    (hup : ∀ e ∈ up, e.statOk = true ∧ e.unlinkOk = true)
    (hconv : ∀ e ∈ conv, e.statOk = true ∧ e.unlinkOk = true) :
    cleanupOldFiles now up conv
      = (up.filter (fun e => decide (now - e.mtime ≤ ONE_HOUR)),
         conv.filter (fun e => decide (now - e.mtime ≤ ONE_HOUR)))
    ∧ (∀ e ∈ up, e ∈ (cleanupOldFiles now up conv).1 ↔ now - e.mtime ≤ ONE_HOUR)
    ∧ (∀ e ∈ conv, e ∈ (cleanupOldFiles now up conv).2 ↔ now - e.mtime ≤ ONE_HOUR) := by
  have hmain : cleanupOldFiles now up conv
      = (up.filter (fun e => decide (now - e.mtime ≤ ONE_HOUR)),
         conv.filter (fun e => decide (now - e.mtime ≤ ONE_HOUR))) := by
    unfold cleanupOldFiles
    rw [sweepDir_ok now up hup, sweepDir_ok now conv hconv]
    simp
  refine ⟨hmain, ?_, ?_⟩
  · intro e he
    rw [hmain]
    simp [List.mem_filter, he]
  · intro e he
    rw [hmain]
    simp [List.mem_filter, he]

/-- Witness for C8: an old and a young entry in each directory; exactly
the old ones are deleted. -/
theorem retention_sweep_exact_witness :
    ((∀ e ∈ [(⟨"u-old", 0, true, true⟩ : DirEntry), ⟨"u-young", 7000000, true, true⟩],
        e.statOk = true ∧ e.unlinkOk = true)
      ∧ (∀ e ∈ [(⟨"c-old", 100, true, true⟩ : DirEntry), ⟨"c-young", 6999999, true, true⟩],
        e.statOk = true ∧ e.unlinkOk = true))
    ∧ (cleanupOldFiles 7200000
        [⟨"u-old", 0, true, true⟩, ⟨"u-young", 7000000, true, true⟩]
        [⟨"c-old", 100, true, true⟩, ⟨"c-young", 6999999, true, true⟩]
      = ([(⟨"u-old", 0, true, true⟩ : DirEntry), ⟨"u-young", 7000000, true, true⟩].filter
            (fun e => decide (7200000 - e.mtime ≤ ONE_HOUR)),
         [(⟨"c-old", 100, true, true⟩ : DirEntry), ⟨"c-young", 6999999, true, true⟩].filter
            (fun e => decide (7200000 - e.mtime ≤ ONE_HOUR)))
      ∧ (∀ e ∈ [(⟨"u-old", 0, true, true⟩ : DirEntry), ⟨"u-young", 7000000, true, true⟩],
          e ∈ (cleanupOldFiles 7200000
            [⟨"u-old", 0, true, true⟩, ⟨"u-young", 7000000, true, true⟩]
            [⟨"c-old", 100, true, true⟩, ⟨"c-young", 6999999, true, true⟩]).1
            ↔ 7200000 - e.mtime ≤ ONE_HOUR)
      ∧ (∀ e ∈ [(⟨"c-old", 100, true, true⟩ : DirEntry), ⟨"c-young", 6999999, true, true⟩],
          e ∈ (cleanupOldFiles 7200000
            [⟨"u-old", 0, true, true⟩, ⟨"u-young", 7000000, true, true⟩]
            [⟨"c-old", 100, true, true⟩, ⟨"c-young", 6999999, true, true⟩]).2
            ↔ 7200000 - e.mtime ≤ ONE_HOUR)) :=
  ⟨⟨by decide, by decide⟩,
    retention_sweep_exact 7200000
      [⟨"u-old", 0, true, true⟩, ⟨"u-young", 7000000, true, true⟩]
      [⟨"c-old", 100, true, true⟩, ⟨"c-young", 6999999, true, true⟩]
      (by decide) (by decide)⟩

/-- C1: a clean accepted batch is answered with HTTP 200 and a body in
which `files.length = convertedCount`, `convertedCount + errors.length =
totalFiles` (the number of accepted files), `success` is true iff at least
one file converted (all-fail batches get `success:false` at status 200),
and `errors` is omitted exactly when no file failed. -/
theorem convert_response_accounting (st : FsState) (uploads : List RawUpload)
    (hne : uploads ≠ [])
    (hext : ∀ u ∈ uploads, allowedFile u.originalname = true)
    (hsize : ∀ u ∈ uploads, u.size ≤ 10 * 1024 * 1024)
    (hcount : uploads.length ≤ 10)
    (hu : st.uploads.Nodup)
    (hfresh : ∀ f ∈ uploads.map stagedOf, f.filename ∉ st.uploads)
    (hnod : ((uploads.map stagedOf).map (fun f => f.filename)).Nodup)
    (hout : ((uploads.map stagedOf).map outName).Nodup)
    (hclean : ∀ f ∈ uploads.map stagedOf, lookupSize st.converted (outName f) = none) :
    ∃ body, (postConvert st uploads).2.1 = HttpResponse.ok body
      ∧ statusOf (postConvert st uploads).2.1 = 200
      ∧ body.files.length = body.convertedCount
      ∧ body.convertedCount + (body.errors.getD []).length = body.totalFiles
      ∧ body.totalFiles = uploads.length
      ∧ (body.success = true ↔ ∃ u ∈ uploads, fileOk (stagedOf u) = true)
      ∧ (body.errors = none ↔ ∀ u ∈ uploads, fileOk (stagedOf u) = true) := by
  obtain ⟨hA, hB, hC⟩ :=
    postConvert_clean st uploads hne hext hsize hcount hu hfresh hnod hout hclean
  have hsum := succ_err_length (uploads.map stagedOf)
  have hlm : (uploads.map stagedOf).length = uploads.length := List.length_map _ _
  refine ⟨_, hA, by rw [hA]; rfl, rfl, ?_, rfl, ?_, ?_⟩
  · show (succList (uploads.map stagedOf)).length
        + ((if (errList (uploads.map stagedOf)).length != 0
            then some (errList (uploads.map stagedOf)) else none).getD []).length
        = uploads.length
    by_cases hb : (errList (uploads.map stagedOf)).length = 0
    · simp [hb]
      omega
    · have hbt : ((errList (uploads.map stagedOf)).length != 0) = true := by
        rw [bne_iff_ne]; exact hb
      simp [hbt]
      omega
  · show (((succList (uploads.map stagedOf)).length != 0) = true)
        ↔ ∃ u ∈ uploads, fileOk (stagedOf u) = true
    rw [bne_iff_ne, ne_eq, List.length_eq_zero, succList_eq_nil_iff]
    push_neg
    constructor
    · rintro ⟨f, hf, hok⟩
      rcases List.mem_map.mp hf with ⟨u, hu2, rfl⟩
      exact ⟨u, hu2, hok⟩
    · rintro ⟨u, hu2, hok⟩
      exact ⟨stagedOf u, List.mem_map_of_mem _ hu2, hok⟩
  · show ((if (errList (uploads.map stagedOf)).length != 0
          then some (errList (uploads.map stagedOf)) else none) = none)
        ↔ ∀ u ∈ uploads, fileOk (stagedOf u) = true
    constructor
    · intro h0
      by_cases hb : (errList (uploads.map stagedOf)).length = 0
      · intro u hu2
        exact (errList_eq_nil_iff _).mp (List.length_eq_zero.mp hb) _
          (List.mem_map_of_mem _ hu2)
      · have hbt : ((errList (uploads.map stagedOf)).length != 0) = true := by
          rw [bne_iff_ne]; exact hb
        rw [if_pos hbt] at h0
        cases h0
    · intro hall
      have hnil : errList (uploads.map stagedOf) = [] := by
        rw [errList_eq_nil_iff]
        intro f hf
        rcases List.mem_map.mp hf with ⟨u, hu2, rfl⟩
        exact hall u hu2
      rw [hnil]
      rfl

/-- Witness for C1 at the concrete two-file batch. -/
theorem convert_response_accounting_witness :
    (wBatch ≠ []
      ∧ (∀ u ∈ wBatch, allowedFile u.originalname = true)
      ∧ (∀ u ∈ wBatch, u.size ≤ 10 * 1024 * 1024)
      ∧ wBatch.length ≤ 10
      ∧ wSt.uploads.Nodup
      ∧ (∀ f ∈ wBatch.map stagedOf, f.filename ∉ wSt.uploads)
      ∧ ((wBatch.map stagedOf).map (fun f => f.filename)).Nodup
      ∧ ((wBatch.map stagedOf).map outName).Nodup
      ∧ (∀ f ∈ wBatch.map stagedOf, lookupSize wSt.converted (outName f) = none))
    ∧ (∃ body, (postConvert wSt wBatch).2.1 = HttpResponse.ok body
      ∧ statusOf (postConvert wSt wBatch).2.1 = 200
      ∧ body.files.length = body.convertedCount
      ∧ body.convertedCount + (body.errors.getD []).length = body.totalFiles
      ∧ body.totalFiles = wBatch.length
      ∧ (body.success = true ↔ ∃ u ∈ wBatch, fileOk (stagedOf u) = true)
      ∧ (body.errors = none ↔ ∀ u ∈ wBatch, fileOk (stagedOf u) = true)) :=
  ⟨⟨by decide, by decide, by decide, by decide, by decide, by decide, by decide,
    by decide, by decide⟩,
   convert_response_accounting wSt wBatch (by decide) (by decide) (by decide)
     (by decide) (by decide) (by decide) (by decide) (by decide) (by decide)⟩

/-- Counterexample for C2: a decode failure is reported, but the error
entry carries the `fs.stat` ENOENT message for the missing output file,
not the adapter's conversion failure message, which is discarded. -/
theorem conversion_message_discarded :
    (postConvert { uploads := [], converted := [] }
        [{ originalname := "bad.heic", size := 5, timestamp := 1000,
           conv := { decodeOk := false,
                     decodeErr := "ERR_LIBHEIF format not supported",
                     encodeOk := true, encodeErr := "", jpegSize := 0 } }]).2.1
      = HttpResponse.ok
          { success := false, convertedCount := 0, totalFiles := 1, files := [],
            errors := some [{ file := "bad.heic",
                              error := "ENOENT: no such file or directory, stat 1000-bad.jpg" }] }
    ∧ "ENOENT: no such file or directory, stat 1000-bad.jpg"
        ≠ "ERR_LIBHEIF format not supported" := by
  constructor
  · decide
  · decide

/-- C2 (amended): every file whose conversion fails gets an error entry
naming that file, but the recorded message is the `fs.stat` failure on the
missing output path (the adapter's conversion message is discarded by the
handler). -/
theorem error_entries_record_stat_failure (st : FsState) (uploads : List RawUpload)
    (hne : uploads ≠ [])
    (hext : ∀ u ∈ uploads, allowedFile u.originalname = true)
    (hsize : ∀ u ∈ uploads, u.size ≤ 10 * 1024 * 1024)
    (hcount : uploads.length ≤ 10)
    (hu : st.uploads.Nodup)
    (hfresh : ∀ f ∈ uploads.map stagedOf, f.filename ∉ st.uploads)
    (hnod : ((uploads.map stagedOf).map (fun f => f.filename)).Nodup)
    (hout : ((uploads.map stagedOf).map outName).Nodup)
    (hclean : ∀ f ∈ uploads.map stagedOf, lookupSize st.converted (outName f) = none) :
    ∀ u ∈ uploads, fileOk (stagedOf u) = false →
      ∃ body, (postConvert st uploads).2.1 = HttpResponse.ok body
        ∧ ∃ l, body.errors = some l
          ∧ ({ file := u.originalname,
               error := statErrMsg (outName (stagedOf u)) } : ErrEntry) ∈ l := by
  obtain ⟨hA, hB, hC⟩ :=
    postConvert_clean st uploads hne hext hsize hcount hu hfresh hnod hout hclean
  intro u hu2 hfail
  have hmem : mkError (stagedOf u) ∈ errList (uploads.map stagedOf) :=
    errList_mem _ _ (List.mem_map_of_mem _ hu2) hfail
  have hne2 : (errList (uploads.map stagedOf)).length ≠ 0 := by
    intro h0
    rw [List.length_eq_zero] at h0
    rw [h0] at hmem
    cases hmem
  have hbt : ((errList (uploads.map stagedOf)).length != 0) = true := by
    rw [bne_iff_ne]; exact hne2
  refine ⟨_, hA, errList (uploads.map stagedOf), ?_, hmem⟩
  show (if (errList (uploads.map stagedOf)).length != 0
        then some (errList (uploads.map stagedOf)) else none)
      = some (errList (uploads.map stagedOf))
  rw [if_pos hbt]

/-- Witness for C2 (amended): the failing file's entry records the stat
message for its missing output. -/
theorem error_entries_record_stat_failure_witness :
    (wBatch ≠ []
      ∧ (∀ u ∈ wBatch, allowedFile u.originalname = true)
      ∧ (∀ u ∈ wBatch, u.size ≤ 10 * 1024 * 1024)
      ∧ wBatch.length ≤ 10
      ∧ wSt.uploads.Nodup
      ∧ (∀ f ∈ wBatch.map stagedOf, f.filename ∉ wSt.uploads)
      ∧ ((wBatch.map stagedOf).map (fun f => f.filename)).Nodup
      ∧ ((wBatch.map stagedOf).map outName).Nodup
      ∧ (∀ f ∈ wBatch.map stagedOf, lookupSize wSt.converted (outName f) = none)
      ∧ wBad ∈ wBatch ∧ fileOk (stagedOf wBad) = false)
    ∧ (∃ body, (postConvert wSt wBatch).2.1 = HttpResponse.ok body
        ∧ ∃ l, body.errors = some l
          ∧ ({ file := wBad.originalname,
               error := statErrMsg (outName (stagedOf wBad)) } : ErrEntry) ∈ l) :=
  ⟨⟨by decide, by decide, by decide, by decide, by decide, by decide, by decide,
    by decide, by decide, by decide, by decide⟩,
   error_entries_record_stat_failure wSt wBatch (by decide) (by decide) (by decide)
     (by decide) (by decide) (by decide) (by decide) (by decide) (by decide)
     wBad (by decide) (by decide)⟩

/-- C3: every staged file of a clean accepted batch is removed from the
staging directory exactly once by the time the loop completes — one
successful unlink per file, no failed unlink attempt, and the staged name
is absent afterwards — regardless of its conversion outcome. -/
theorem staged_files_removed_once (st : FsState) (uploads : List RawUpload)
    (hne : uploads ≠ [])
    (hext : ∀ u ∈ uploads, allowedFile u.originalname = true)
    (hsize : ∀ u ∈ uploads, u.size ≤ 10 * 1024 * 1024)
    (hcount : uploads.length ≤ 10)
    (hu : st.uploads.Nodup)
    (hfresh : ∀ f ∈ uploads.map stagedOf, f.filename ∉ st.uploads)
    (hnod : ((uploads.map stagedOf).map (fun f => f.filename)).Nodup)
    (hout : ((uploads.map stagedOf).map outName).Nodup)
    (hclean : ∀ f ∈ uploads.map stagedOf, lookupSize st.converted (outName f) = none) :
    ∀ u ∈ uploads,
      ((postConvert st uploads).2.2).count
          (FsEvent.unlinkCalled (stagedOf u).filename true) = 1
      ∧ FsEvent.unlinkCalled (stagedOf u).filename false ∉ (postConvert st uploads).2.2
      ∧ (stagedOf u).filename ∉ (postConvert st uploads).1.uploads := by
  obtain ⟨hA, hB, hC⟩ :=
    postConvert_clean st uploads hne hext hsize hcount hu hfresh hnod hout hclean
  intro u hu2
  have hfmem : (stagedOf u).filename
      ∈ (uploads.map stagedOf).map (fun f => f.filename) :=
    List.mem_map_of_mem _ (List.mem_map_of_mem _ hu2)
  refine ⟨?_, ?_, hC _ (List.mem_map_of_mem _ hu2)⟩
  · rw [hB, evList_count_unlink]
    exact List.count_eq_one_of_mem hnod hfmem
  · rw [hB]
    exact evList_no_failed_unlink _ _

/-- Witness for C3 at the concrete two-file batch. -/
theorem staged_files_removed_once_witness :
    (wBatch ≠ []
      ∧ (∀ u ∈ wBatch, allowedFile u.originalname = true)
      ∧ (∀ u ∈ wBatch, u.size ≤ 10 * 1024 * 1024)
      ∧ wBatch.length ≤ 10
      ∧ wSt.uploads.Nodup
      ∧ (∀ f ∈ wBatch.map stagedOf, f.filename ∉ wSt.uploads)
      ∧ ((wBatch.map stagedOf).map (fun f => f.filename)).Nodup
      ∧ ((wBatch.map stagedOf).map outName).Nodup
      ∧ (∀ f ∈ wBatch.map stagedOf, lookupSize wSt.converted (outName f) = none)
      ∧ wBad ∈ wBatch)
    ∧ (((postConvert wSt wBatch).2.2).count
          (FsEvent.unlinkCalled (stagedOf wBad).filename true) = 1
      ∧ FsEvent.unlinkCalled (stagedOf wBad).filename false ∉ (postConvert wSt wBatch).2.2
      ∧ (stagedOf wBad).filename ∉ (postConvert wSt wBatch).1.uploads) :=
  ⟨⟨by decide, by decide, by decide, by decide, by decide, by decide, by decide,
    by decide, by decide, by decide⟩,
   staged_files_removed_once wSt wBatch (by decide) (by decide) (by decide)
     (by decide) (by decide) (by decide) (by decide) (by decide) (by decide)
     wBad (by decide)⟩

/-- C7: batch processing is failure-isolated: every accepted file is
attempted (a conversion call is observed for each), each file contributes
exactly one entry so the entry counts sum to the batch size, every failing
file has an error-bearing entry, and every succeeding file a success
entry — one file's failure never aborts the batch. -/
theorem batch_failure_isolation (st : FsState) (uploads : List RawUpload)
    (hne : uploads ≠ [])
    (hext : ∀ u ∈ uploads, allowedFile u.originalname = true)
    (hsize : ∀ u ∈ uploads, u.size ≤ 10 * 1024 * 1024)
    (hcount : uploads.length ≤ 10)
    (hu : st.uploads.Nodup)
    (hfresh : ∀ f ∈ uploads.map stagedOf, f.filename ∉ st.uploads)
    (hnod : ((uploads.map stagedOf).map (fun f => f.filename)).Nodup)
    (hout : ((uploads.map stagedOf).map outName).Nodup)
    (hclean : ∀ f ∈ uploads.map stagedOf, lookupSize st.converted (outName f) = none) :
    (∀ u ∈ uploads,
        FsEvent.convertCalled (stagedOf u).filename ∈ (postConvert st uploads).2.2)
    ∧ ∃ body, (postConvert st uploads).2.1 = HttpResponse.ok body
        ∧ body.files.length + (body.errors.getD []).length = uploads.length
        ∧ (∀ u ∈ uploads, fileOk (stagedOf u) = false →
            mkError (stagedOf u) ∈ body.errors.getD [])
        ∧ (∀ u ∈ uploads, fileOk (stagedOf u) = true →
            mkSuccess (stagedOf u) ∈ body.files) := by
  obtain ⟨hA, hB, hC⟩ :=
    postConvert_clean st uploads hne hext hsize hcount hu hfresh hnod hout hclean
  have hsum := succ_err_length (uploads.map stagedOf)
  have hlm : (uploads.map stagedOf).length = uploads.length := List.length_map _ _
  constructor
  · intro u hu2
    rw [hB]
    exact evList_mem_convert _ _ (List.mem_map_of_mem _ hu2)
  · refine ⟨_, hA, ?_, ?_, ?_⟩
    · show (succList (uploads.map stagedOf)).length
          + ((if (errList (uploads.map stagedOf)).length != 0
              then some (errList (uploads.map stagedOf)) else none).getD []).length
          = uploads.length
      by_cases hb : (errList (uploads.map stagedOf)).length = 0
      · simp [hb]
        omega
      · have hbt : ((errList (uploads.map stagedOf)).length != 0) = true := by
          rw [bne_iff_ne]; exact hb
        simp [hbt]
        omega
    · intro u hu2 hfail
      have hmem : mkError (stagedOf u) ∈ errList (uploads.map stagedOf) :=
        errList_mem _ _ (List.mem_map_of_mem _ hu2) hfail
      have hne2 : (errList (uploads.map stagedOf)).length ≠ 0 := by
        intro h0
        rw [List.length_eq_zero] at h0
        rw [h0] at hmem
        cases hmem
      have hbt : ((errList (uploads.map stagedOf)).length != 0) = true := by
        rw [bne_iff_ne]; exact hne2
      show mkError (stagedOf u)
          ∈ (if (errList (uploads.map stagedOf)).length != 0
             then some (errList (uploads.map stagedOf)) else none).getD []
      rw [if_pos hbt]
      exact hmem
    · intro u hu2 hok
      exact succList_mem _ _ (List.mem_map_of_mem _ hu2) hok

/-- Witness for C7 at the concrete two-file batch. -/
theorem batch_failure_isolation_witness :
    (wBatch ≠ []
      ∧ (∀ u ∈ wBatch, allowedFile u.originalname = true)
      ∧ (∀ u ∈ wBatch, u.size ≤ 10 * 1024 * 1024)
      ∧ wBatch.length ≤ 10
      ∧ wSt.uploads.Nodup
      ∧ (∀ f ∈ wBatch.map stagedOf, f.filename ∉ wSt.uploads)
      ∧ ((wBatch.map stagedOf).map (fun f => f.filename)).Nodup
      ∧ ((wBatch.map stagedOf).map outName).Nodup
      ∧ (∀ f ∈ wBatch.map stagedOf, lookupSize wSt.converted (outName f) = none))
    ∧ ((∀ u ∈ wBatch,
        FsEvent.convertCalled (stagedOf u).filename ∈ (postConvert wSt wBatch).2.2)
      ∧ ∃ body, (postConvert wSt wBatch).2.1 = HttpResponse.ok body
        ∧ body.files.length + (body.errors.getD []).length = wBatch.length
        ∧ (∀ u ∈ wBatch, fileOk (stagedOf u) = false →
            mkError (stagedOf u) ∈ body.errors.getD [])
        ∧ (∀ u ∈ wBatch, fileOk (stagedOf u) = true →
            mkSuccess (stagedOf u) ∈ body.files)) :=
  ⟨⟨by decide, by decide, by decide, by decide, by decide, by decide, by decide,
    by decide, by decide⟩,
   batch_failure_isolation wSt wBatch (by decide) (by decide) (by decide)
     (by decide) (by decide) (by decide) (by decide) (by decide) (by decide)⟩

end DropHeic
